import Mathlib

set_option maxHeartbeats 1000000

/-! Shallow embedding of `split_pdf_by_candidate.py`.

Python strings are modelled as `List Char`; the Python string operations the
program uses (`strip`, `split(',')`, `split()`, `replace`) are modelled
explicitly below.  Fallible code (Python code that can raise) returns
`Option`.  Filesystem side effects are modelled as explicit effect traces. -/

/-- Python `str` whitespace characters (ASCII range), as recognised by
`str.strip()` and `str.split()`. -/
def pyIsSpace (c : Char) : Bool :=
  c = ' ' || c = '\t' || c = '\n' || c = '\r' || c = '\x0b' || c = '\x0c'

/-- Python `str.strip()`: remove leading and trailing whitespace. -/
def pyStrip (s : List Char) : List Char :=
  ((s.dropWhile pyIsSpace).reverse.dropWhile pyIsSpace).reverse

/-- Python `str.split(sep)` for a one-character separator: cut at every
occurrence of `sep`, keeping empty pieces (so the result is always
non-empty, and has one more piece than there are separators). -/
def pySplitOn (sep : Char) : List Char → List (List Char)
  | [] => [[]]
  | c :: cs =>
    if c = sep then [] :: pySplitOn sep cs
    else
      match pySplitOn sep cs with
      | t :: ts => (c :: t) :: ts
      | [] => [[c]]

/-- Helper for `pySplitWs`; `acc` is the current partial token, reversed. -/
def pySplitWsAux : List Char → List Char → List (List Char)
  | [], acc => if acc.isEmpty then [] else [acc.reverse]
  | c :: cs, acc =>
    if pyIsSpace c then
      if acc.isEmpty then pySplitWsAux cs []
      else acc.reverse :: pySplitWsAux cs []
    else pySplitWsAux cs (c :: acc)

/-- Python `str.split()` with no argument: maximal runs of non-whitespace
characters, with empty tokens dropped. -/
def pySplitWs (s : List Char) : List (List Char) := pySplitWsAux s []

/-- The characters replaced by `sanitize_filename` (source line 182:
`invalid_chars = '<>:"/\\|?*'`). -/
def invalid_chars : List Char := ['<', '>', ':', '"', '/', '\\', '|', '?', '*']

/-- Python `str.replace(old, new)` for one-character `old`/`new`. -/
def pyReplaceChar (s : List Char) (old new : Char) : List Char :=
  s.map (fun c => if c = old then new else c)

/-- `CandidatePDFSplitter.sanitize_filename` (source lines 180-185): replace
each character of `invalid_chars` by an underscore, then strip. -/
def sanitize_filename (filename : List Char) : List Char :=
  pyStrip (invalid_chars.foldl (fun acc ch => pyReplaceChar acc ch '_') filename)

/-- `CandidatePDFSplitter.parse_candidate_name` (source lines 149-178).
`none` models the `IndexError` the Python code raises when the label contains
a comma but the piece after the first comma (up to the next comma, if any)
holds no whitespace-delimited token (`parts[1].strip().split()[0]`). -/
def parse_candidate_name (name_str : List Char) : Option (List Char) :=
  let s := pyStrip name_str
  if ',' ∈ s then
    let parts := pySplitOn ',' s
    let lastname := pyStrip (parts.headD [])
    match pySplitWs (pyStrip (parts.getD 1 [])) with
    | [] => none
    | firstname :: _ => some (sanitize_filename (lastname ++ '_' :: firstname))
  else
    let parts := pySplitWs s
    if 2 ≤ parts.length then
      some (sanitize_filename (parts.getLastD [] ++ '_' :: parts.headD []))
    else
      some (sanitize_filename s)

/-! Segmenter (`split_pdf`, source lines 187-249). -/

/-- Python `range(a, b)` over integers, as a list. -/
def pyRange (a b : Int) : List Int :=
  (List.range (b - a).toNat).map (fun (k : Nat) => a + (k : Int))

/-- End page of boundary `i` (source lines 214-219): one before the next
boundary's start page, or the last page of the document for the last
boundary. -/
def end_page (toc : List (List Char × Int)) (total : Nat) (i : Nat) : Int :=
  match toc[i + 1]? with
  | some nxt => nxt.2 - 1
  | none => (total : Int) - 1

/-- The page numbers the writer loop passes to `add_page` for one candidate
(source lines 234-236): `range(start_page, end_page + 1)` filtered by the
single bound check `page_num < len(self.reader.pages)`. -/
def candidate_page_nums (start_page e : Int) (total : Nat) : List Int :=
  (pyRange start_page (e + 1)).filter (fun p => p < (total : Int))

/-- Python list indexing `reader.pages[i]`, for `-total ≤ i < total`:
a negative index counts from the end of the document. -/
def pyPageIndex (total : Nat) (i : Int) : Int :=
  if i < 0 then (total : Int) + i else i

/-- Insertion step of the by-start-page sort. -/
def insertByStart (x : List Char × Int) :
    List (List Char × Int) → List (List Char × Int)
  | [] => [x]
  | y :: ys => if x.2 < y.2 then x :: y :: ys else y :: insertByStart x ys

/-- `toc_entries.sort(key=lambda x: x[1])` (source line 207): sort the
boundary list by start page only.  (Python's sort is stable; stability is
immaterial here because no claim involves equal start pages.) -/
def sortByStart : List (List Char × Int) → List (List Char × Int)
  | [] => []
  | x :: xs => insertByStart x (sortByStart xs)

/-- The inclusive candidate ranges produced by the segmenter from an
(already sorted) boundary list: boundary `i` spans from its own start page to
`end_page` of `i`. -/
def candidate_ranges (total : Nat) : List (List Char × Int) → List (Int × Int)
  | [] => []
  | [e] => [(e.2, (total : Int) - 1)]
  | e :: nxt :: rest => (e.2, nxt.2 - 1) :: candidate_ranges total (nxt :: rest)

/-- A page index is covered by (at least) one of the ranges. -/
def rangesCover (rs : List (Int × Int)) (p : Int) : Prop :=
  ∃ r ∈ rs, r.1 ≤ p ∧ p ≤ r.2

instance (rs : List (Int × Int)) (p : Int) : Decidable (rangesCover rs p) := by
  unfold rangesCover; infer_instance

/-! Text-pattern fallback (`extract_toc_from_text`, source lines 115-147).
The regex `([A-Z][a-zA-Z\-]+,\s+[A-Z][a-zA-Z\-]+)[\s.]+(\d+)` is modelled
by a deterministic greedy matcher; every pair of adjacent regex elements has
disjoint character classes, so greedy matching without backtracking agrees
with Python regex semantics on this pattern. -/

/-- Character class `[A-Z]`. -/
def isUpperAscii (c : Char) : Bool := 'A' ≤ c && c ≤ 'Z'

/-- Character class `[a-zA-Z\-]`. -/
def isNameChar (c : Char) : Bool :=
  ('a' ≤ c && c ≤ 'z') || ('A' ≤ c && c ≤ 'Z') || c = '-'

/-- Character class `[\s.]`. -/
def isFillChar (c : Char) : Bool := pyIsSpace c || c = '.'

/-- Character class `[0-9]` (`\d` on an ASCII subject). -/
def isDigitAscii (c : Char) : Bool := '0' ≤ c && c ≤ '9'

/-- Match `[A-Z][a-zA-Z\-]+` at the head of `s`; on success return the
consumed characters and the remainder. -/
def matchNamePart (s : List Char) : Option (List Char × List Char) :=
  match s with
  | [] => none
  | c :: cs =>
    if isUpperAscii c then
      let tok := cs.takeWhile isNameChar
      if tok.isEmpty then none
      else some (c :: tok, cs.dropWhile isNameChar)
    else none

/-- Match the whole TOC pattern at the head of `s`; on success return
(group 1 = the name, group 2 = the digits, remainder after the match). -/
def matchToc (s : List Char) : Option (List Char × List Char × List Char) :=
  match matchNamePart s with
  | none => none
  | some (last, r1) =>
    match r1 with
    | ',' :: r2 =>
      let ws := r2.takeWhile pyIsSpace
      if ws.isEmpty then none
      else
        match matchNamePart (r2.dropWhile pyIsSpace) with
        | none => none
        | some (first, r3) =>
          let fill := r3.takeWhile isFillChar
          if fill.isEmpty then none
          else
            let afterFill := r3.dropWhile isFillChar
            let digits := afterFill.takeWhile isDigitAscii
            if digits.isEmpty then none
            else some (last ++ ',' :: ws ++ first, digits, afterFill.dropWhile isDigitAscii)
    | _ => none

/-- `re.findall` for the TOC pattern: leftmost, non-overlapping matches.
`fuel` bounds the number of scan steps; every step consumes at least one
character of the subject, so `s.length` steps always suffice. -/
def findallTocAux : Nat → List Char → List (List Char × List Char)
  | 0, _ => []
  | _ + 1, [] => []
  | fuel + 1, c :: cs =>
    match matchToc (c :: cs) with
    | some (g1, g2, rest) => (g1, g2) :: findallTocAux fuel rest
    | none => findallTocAux fuel cs

/-- `re.findall(pattern, text)` for the TOC pattern of source line 135. -/
def findallToc (s : List Char) : List (List Char × List Char) :=
  findallTocAux s.length s

/-- Python `int(...)` on a non-empty digit string. -/
def digitsToNat (ds : List Char) : Nat :=
  ds.foldl (fun a c => 10 * a + (c.toNat - '0'.toNat)) 0

/-- The TOC entries one page of text contributes (source lines 137-139):
every match yields `(name.strip(), int(page_num) - 1)`. -/
def pageTocEntries (text : List Char) : List (List Char × Int) :=
  (findallToc text).map (fun g => (pyStrip g.1, (digitsToNat g.2 : Int) - 1))

/-- `CandidatePDFSplitter.extract_toc_from_text` (source lines 115-147): scan
the first `min(5, page count)` pages, accumulating matches in page order.
The document's pages are given by their extracted text. -/
def extract_toc_from_text (pageTexts : List (List Char)) : List (List Char × Int) :=
  ((pageTexts.take 5).map pageTocEntries).flatten

/-- Boundary-source selection in `split_pdf` (source lines 194-199): the
outline entries if there are any, otherwise the text-pattern fallback. -/
def select_boundaries (outline : List (List Char × Int))
    (pageTexts : List (List Char)) : List (List Char × Int) :=
  if outline.isEmpty then extract_toc_from_text pageTexts else outline

/-! Filesystem effect traces for `__init__`, `split_pdf` and `main`
(source lines 29-39, 187-249, 275-335). -/

/-- One filesystem or logging effect of a run. -/
inductive FsEff where
  /-- `self.output_base_dir.mkdir(parents=True, exist_ok=True)` in the
  constructor (source line 39). -/
  | mkdirBase (base : List Char) : FsEff
  /-- `candidate_folder.mkdir(parents=True, exist_ok=True)` (source line 229). -/
  | mkdirCand (base name : List Char) : FsEff
  /-- writing `<base>/<name>/<name>.pdf` with the given page numbers
  (source lines 239-241). -/
  | writeCand (base name : List Char) (pages : List Int) : FsEff
  /-- a `logger.error` call with the given context. -/
  | logErr (ctx : List Char) : FsEff
deriving DecidableEq

/-- Effects of the loop body for candidate `i` (source lines 212-247).
`failsWrite i = true` models an exception raised at the write step (line
240-241), after the candidate folder was created; a `none` from
`parse_candidate_name` models the `IndexError` raised at line 222, before any
folder is created.  Either exception is caught by the `except` at line 245,
which logs the error and continues. -/
def candidate_effects (base : List Char) (total : Nat)
    (toc : List (List Char × Int)) (failsWrite : Nat → Bool)
    (i : Nat) (entry : List Char × Int) : List FsEff :=
  match parse_candidate_name entry.1 with
  | none => [FsEff.logErr entry.1]
  | some nm =>
    if failsWrite i then [FsEff.mkdirCand base nm, FsEff.logErr entry.1]
    else
      [FsEff.mkdirCand base nm,
       FsEff.writeCand base nm (candidate_page_nums entry.2 (end_page toc total i) total)]

/-- The per-candidate effect blocks of the `split_pdf` loop, in order, over an
already sorted boundary list. -/
def split_blocks (base : List Char) (total : Nat) (failsWrite : Nat → Bool)
    (toc : List (List Char × Int)) : List (List FsEff) :=
  toc.enum.map (fun ie => candidate_effects base total toc failsWrite ie.1 ie.2)

/-- Effects of `CandidatePDFSplitter.split_pdf` (source lines 187-249): select
boundaries, abort with a logged error when there are none, otherwise sort by
start page and process every candidate in order. -/
def split_pdf_effects (base : List Char) (total : Nat)
    (outline : List (List Char × Int)) (pageTexts : List (List Char))
    (failsWrite : Nat → Bool) : List FsEff :=
  let toc := select_boundaries outline pageTexts
  if toc.isEmpty then [FsEff.logErr "could not extract table of contents".toList]
  else (split_blocks base total failsWrite (sortByStart toc)).flatten

/-- Exit code and effect trace of `main` (source lines 275-335).  `pdfArg` is
the optional positional argument, `fileExists` models `os.path.exists`,
`globR007` the result of `glob.glob('R007*.pdf')`, `analyze` the `-a` flag and
`base` the `-o` output base directory.  The splitter constructor (which
creates the output base directory, source line 39) runs before the
analyze/split branch (source lines 329-335).

On the analyze path, `analyze_pdf_structure` (source lines 251-272) accesses
`self.reader.pages[0].extract_text()` at line 265 with no guard — only the
second-page access at line 269 is protected by a length check — so on a
zero-page document the run dies with an uncaught IndexError and the process
exits non-zero (Python exits with code 1 on an uncaught exception), after the
constructor has already created the output base directory.  On the split path
every exception downstream of input resolution is caught (`load_pdf`, both
extractors and the per-candidate loop each log and continue), so that path
always exits 0. -/
def main_run (pdfArg : Option (List Char)) (fileExists : List Char → Bool)
    (globR007 : List (List Char)) (analyze : Bool) (base : List Char)
    (outline : List (List Char × Int)) (pageTexts : List (List Char))
    (total : Nat) (failsWrite : Nat → Bool) : Nat × List FsEff :=
  let exitCode : Nat := if analyze then (if total = 0 then 1 else 0) else 0
  let run : List FsEff :=
    FsEff.mkdirBase base ::
      (if analyze then []
       else split_pdf_effects base total outline pageTexts failsWrite)
  match pdfArg with
  | some f => if fileExists f then (exitCode, run) else (1, [])
  | none =>
    match globR007 with
    | [] => (1, [])
    | _ :: _ => (exitCode, run)

/-! A second normalizer definition written from the words of the claim about
comma labels (split at the FIRST comma only; the right segment is everything
after that comma), to be compared with `parse_candidate_name`, which models
the source (`name_str.split(',')` cuts at every comma and uses `parts[1]`,
the piece between the first and second comma). -/

/-- Claimed comma-label normalizer: lastname is the trimmed segment left of
the first comma, firstname the first whitespace-delimited token of everything
right of the first comma. -/
def parse_comma_claimed (name_str : List Char) : Option (List Char) :=
  let s := pyStrip name_str
  let lastname := pyStrip (s.takeWhile (fun c => c ≠ ','))
  let right := (s.dropWhile (fun c => c ≠ ',')).drop 1
  match pySplitWs right with
  | [] => none
  | firstname :: _ => some (sanitize_filename (lastname ++ '_' :: firstname))

/-! Helper lemmas. -/

theorem mem_dropWhile_iff (p : Char → Bool) (c : Char) (hc : p c = false)
    (l : List Char) : c ∈ l.dropWhile p ↔ c ∈ l := by
  induction l with
  | nil => simp
  | cons a t ih =>
    by_cases ha : p a = true
    · rw [List.dropWhile_cons_of_pos ha, ih]
      simp only [List.mem_cons]
      constructor
      · exact Or.inr
      · rintro (rfl | hmem)
        · rw [hc] at ha; cases ha
        · exact hmem
    · rw [List.dropWhile_cons_of_neg ha]

theorem mem_pyStrip_iff (c : Char) (hc : pyIsSpace c = false) (s : List Char) :
    c ∈ pyStrip s ↔ c ∈ s := by
  unfold pyStrip
  rw [List.mem_reverse, mem_dropWhile_iff _ _ hc, List.mem_reverse,
    mem_dropWhile_iff _ _ hc]

theorem dropWhile_eq_self_of_all (p : Char → Bool) (l : List Char)
    (h : ∀ c ∈ l, p c = false) : l.dropWhile p = l := by
  cases l with
  | nil => rfl
  | cons a t => exact List.dropWhile_cons_of_neg (by simp [h a (by simp)])

theorem pyStrip_eq_self (s : List Char) (h : ∀ c ∈ s, pyIsSpace c = false) :
    pyStrip s = s := by
  unfold pyStrip
  rw [dropWhile_eq_self_of_all _ _ h,
    dropWhile_eq_self_of_all _ _ (fun c hcm => h c (List.mem_reverse.mp hcm)),
    List.reverse_reverse]

theorem pyReplaceChar_eq_self (s : List Char) (old new : Char) (h : old ∉ s) :
    pyReplaceChar s old new = s := by
  unfold pyReplaceChar
  conv_rhs => rw [← List.map_id s]
  apply List.map_congr_left
  intro c hc
  have hne : c ≠ old := fun hce => h (hce ▸ hc)
  simp [hne]

theorem foldl_sanitize_eq_self (L : List Char) :
    ∀ s : List Char, (∀ ch ∈ L, ch ∉ s) →
      L.foldl (fun acc ch => pyReplaceChar acc ch '_') s = s := by
  induction L with
  | nil => intro s _; rfl
  | cons a t ih =>
    intro s h
    rw [List.foldl_cons, pyReplaceChar_eq_self s a '_' (h a (by simp))]
    exact ih s (fun ch hch => h ch (by simp [hch]))

theorem sanitize_filename_eq_self (s : List Char)
    (hw : ∀ c ∈ s, pyIsSpace c = false) (hf : ∀ c ∈ s, c ∉ invalid_chars) :
    sanitize_filename s = s := by
  unfold sanitize_filename
  rw [foldl_sanitize_eq_self invalid_chars s (fun ch hch hs => hf ch hs hch)]
  exact pyStrip_eq_self s hw

theorem pySplitWsAux_no_ws :
    ∀ s : List Char, (∀ c ∈ s, pyIsSpace c = false) → ∀ acc : List Char,
      pySplitWsAux s acc =
        if (acc.reverse ++ s).isEmpty then [] else [acc.reverse ++ s] := by
  intro s
  induction s with
  | nil =>
    intro _ acc
    simp [pySplitWsAux, List.isEmpty_iff]
  | cons c cs ih =>
    intro h acc
    simp only [pySplitWsAux, h c (by simp), Bool.false_eq_true, if_false]
    rw [ih (fun d hd => h d (by simp [hd])) (c :: acc)]
    rw [List.reverse_cons, List.append_assoc, List.singleton_append]

theorem pySplitWs_no_ws (s : List Char) (hs : s ≠ [])
    (h : ∀ c ∈ s, pyIsSpace c = false) : pySplitWs s = [s] := by
  unfold pySplitWs
  rw [pySplitWsAux_no_ws s h []]
  simp [List.isEmpty_iff, hs]

theorem insertByStart_eq_cons (x : List Char × Int) (l : List (List Char × Int))
    (h : ∀ y ∈ l, x.2 < y.2) : insertByStart x l = x :: l := by
  cases l with
  | nil => rfl
  | cons y ys => simp only [insertByStart, if_pos (h y (by simp))]

theorem sortByStart_eq_self (toc : List (List Char × Int))
    (h : toc.Pairwise (fun a b => a.2 < b.2)) : sortByStart toc = toc := by
  induction toc with
  | nil => rfl
  | cons x xs ih =>
    simp only [sortByStart]
    rw [ih (List.Pairwise.of_cons h)]
    exact insertByStart_eq_cons x xs (fun y hy => (List.pairwise_cons.mp h).1 y hy)

theorem mem_pyRange (a b p : Int) : p ∈ pyRange a b ↔ a ≤ p ∧ p < b := by
  unfold pyRange
  simp only [List.mem_map, List.mem_range]
  constructor
  · rintro ⟨k, hk, rfl⟩; omega
  · intro h; exact ⟨(p - a).toNat, by omega, by omega⟩

theorem pairwise_lt_pyRange (a b : Int) : (pyRange a b).Pairwise (· < ·) := by
  unfold pyRange
  refine List.Pairwise.map _ ?_ (List.pairwise_lt_range _)
  intro i j hij
  omega

theorem mem_candidate_page_nums (s e : Int) (total : Nat) (p : Int) :
    p ∈ candidate_page_nums s e total ↔ s ≤ p ∧ p ≤ e ∧ p < (total : Int) := by
  unfold candidate_page_nums
  simp only [List.mem_filter, mem_pyRange, decide_eq_true_eq]
  omega

theorem pairwise_lt_candidate_page_nums (s e : Int) (total : Nat) :
    (candidate_page_nums s e total).Pairwise (· < ·) :=
  (pairwise_lt_pyRange s (e + 1)).sublist (List.filter_sublist _)

theorem pyRange_cons (a b : Int) (h : a < b) :
    pyRange a b = a :: pyRange (a + 1) b := by
  unfold pyRange
  have hn : (b - a).toNat = (b - (a + 1)).toNat + 1 := by omega
  rw [hn, List.range_succ_eq_map, List.map_cons, List.map_map]
  congr 1
  · norm_num
  · apply List.map_congr_left
    intro k _
    simp only [Function.comp_apply, Nat.succ_eq_add_one]
    omega

theorem candidate_page_nums_neg_one_head (e : Int) (total : Nat)
    (h1 : 1 ≤ total) (h2 : -1 ≤ e) :
    (candidate_page_nums (-1) e total).head? = some (-1) := by
  unfold candidate_page_nums
  rw [pyRange_cons (-1) (e + 1) (by omega)]
  rw [List.filter_cons]
  have hlt : ((-1 : Int) < (total : Int)) := by omega
  simp [hlt]

theorem rangesCover_cons (r : Int × Int) (rs : List (Int × Int)) (p : Int) :
    rangesCover (r :: rs) p ↔ (r.1 ≤ p ∧ p ≤ r.2) ∨ rangesCover rs p := by
  simp [rangesCover]

theorem rangesCover_candidate_ranges (total : Nat) (e : List Char × Int) :
    ∀ rest : List (List Char × Int),
      (e :: rest).Pairwise (fun a b => a.2 < b.2) →
      (∀ f ∈ e :: rest, f.2 ≤ (total : Int) - 1) →
      ∀ p : Int,
        rangesCover (candidate_ranges total (e :: rest)) p ↔
          (e.2 ≤ p ∧ p ≤ (total : Int) - 1) := by
  intro rest
  induction rest generalizing e with
  | nil =>
    intro _ _ p
    simp [candidate_ranges, rangesCover]
  | cons nxt rest' ih =>
    intro hp hb p
    have hlt : e.2 < nxt.2 := (List.pairwise_cons.mp hp).1 nxt (by simp)
    have hb' : ∀ f ∈ nxt :: rest', f.2 ≤ (total : Int) - 1 :=
      fun f hf => hb f (List.mem_cons_of_mem _ hf)
    have hnb : nxt.2 ≤ (total : Int) - 1 := hb' nxt (by simp)
    simp only [candidate_ranges]
    rw [rangesCover_cons, ih nxt (List.Pairwise.of_cons hp) hb' p]
    omega

theorem mem_candidate_ranges_fst (total : Nat) :
    ∀ (toc : List (List Char × Int)) (r : Int × Int),
      r ∈ candidate_ranges total toc → ∃ f ∈ toc, r.1 = f.2 := by
  intro toc
  induction toc with
  | nil => simp [candidate_ranges]
  | cons e rest ih =>
    intro r hr
    cases rest with
    | nil =>
      simp only [candidate_ranges, List.mem_singleton] at hr
      exact ⟨e, by simp, by rw [hr]⟩
    | cons nxt rest' =>
      simp only [candidate_ranges, List.mem_cons] at hr
      rcases hr with rfl | hr
      · exact ⟨e, by simp, rfl⟩
      · obtain ⟨f, hf, hfe⟩ := ih r hr
        exact ⟨f, List.mem_cons_of_mem _ hf, hfe⟩

/-- Two inclusive integer ranges share no page index. -/
def rangesDisjoint (r r' : Int × Int) : Prop :=
  ∀ p : Int, ¬(r.1 ≤ p ∧ p ≤ r.2 ∧ r'.1 ≤ p ∧ p ≤ r'.2)

theorem candidate_ranges_pairwise_disjoint (total : Nat) :
    ∀ toc : List (List Char × Int), toc.Pairwise (fun a b => a.2 < b.2) →
      (candidate_ranges total toc).Pairwise rangesDisjoint := by
  intro toc
  induction toc with
  | nil => intro _; simp [candidate_ranges]
  | cons e rest ih =>
    intro hp
    cases rest with
    | nil => simp [candidate_ranges]
    | cons nxt rest' =>
      simp only [candidate_ranges]
      refine List.Pairwise.cons ?_ (by
        have := ih (List.Pairwise.of_cons hp)
        simpa [candidate_ranges] using this)
      intro r' hr'
      obtain ⟨f, hf, hfst⟩ := mem_candidate_ranges_fst total (nxt :: rest') r' hr'
      have h1 : nxt.2 ≤ f.2 := by
        rcases List.mem_cons.mp hf with rfl | htail
        · exact le_refl _
        · exact le_of_lt
            ((List.pairwise_cons.mp (List.Pairwise.of_cons hp)).1 f htail)
      intro p hcontra
      rw [hfst] at hcontra
      simp only at hcontra
      omega

/-- Scenario 1 boundary list of the spec: outline entries
("Smith, John" at page 2) and ("Doe, Jane" at page 7). -/
def scenario1_toc : List (List Char × Int) :=
  [("Smith, John".toList, 2), ("Doe, Jane".toList, 7)]

/-- C9: name normalization is the identity on canonical input: a label holding
no comma, no whitespace and none of the forbidden filesystem characters is
returned unchanged by `parse_candidate_name`; in particular normalization is
idempotent on such input. -/
theorem parse_candidate_name_canonical_fixed (s : List Char)
    (hc : ',' ∉ s) (hw : ∀ c ∈ s, pyIsSpace c = false)
    (hf : ∀ c ∈ s, c ∉ invalid_chars) :
    parse_candidate_name s = some s := by
  have hsan : sanitize_filename s = s := sanitize_filename_eq_self s hw hf
  simp only [parse_candidate_name]
  rw [pyStrip_eq_self s hw, if_neg hc]
  cases hs : s with
  | nil => subst hs; rfl
  | cons a t =>
    rw [← hs, pySplitWs_no_ws s (by rw [hs]; simp) hw]
    simp [hsan]

/-- C9 witness: the canonical name Smith_John is left unchanged. -/
theorem parse_candidate_name_canonical_fixed_w :
    parse_candidate_name "Smith_John".toList = some "Smith_John".toList :=
  parse_candidate_name_canonical_fixed ("Smith_John".toList)
    (by decide) (by decide) (by decide)

/-- C3 counterexample: on the label "Doe, Jane,Extra" the code
(`name_str.split(',')` takes `parts[1]`, the piece BETWEEN the first and
second comma) produces Doe_Jane, while the claim's rule (first
whitespace-delimited token of everything right of the FIRST comma) produces
Doe_Jane,Extra; the two disagree. -/
theorem parse_comma_label_cex :
    parse_candidate_name "Doe, Jane,Extra".toList = some "Doe_Jane".toList ∧
    parse_comma_claimed "Doe, Jane,Extra".toList = some "Doe_Jane,Extra".toList ∧
    parse_candidate_name "Doe, Jane,Extra".toList ≠
      parse_comma_claimed "Doe, Jane,Extra".toList := by
  refine ⟨by decide, by decide, by decide⟩

/-- C3 (amended): for a label containing a comma, the normalizer cuts at every
comma; the lastname is the trimmed piece before the first comma, and the
firstname is the first whitespace-delimited token of the trimmed piece between
the first and second comma (everything after the comma when there is only
one); the result is the sanitized Lastname_Firstname.  When that piece holds
no token, the code raises IndexError and produces nothing. -/
theorem parse_comma_label_amended (s : List Char) (h : ',' ∈ s) :
    (pySplitWs (pyStrip ((pySplitOn ',' (pyStrip s)).getD 1 [])) = [] →
      parse_candidate_name s = none) ∧
    (∀ f rest,
      pySplitWs (pyStrip ((pySplitOn ',' (pyStrip s)).getD 1 [])) = f :: rest →
      parse_candidate_name s =
        some (sanitize_filename
          (pyStrip ((pySplitOn ',' (pyStrip s)).headD []) ++ '_' :: f))) := by
  have h' : ',' ∈ pyStrip s := (mem_pyStrip_iff ',' (by decide) s).mpr h
  constructor
  · intro hnil
    simp only [parse_candidate_name]
    rw [if_pos h', hnil]
  · intro f rest hsplit
    simp only [parse_candidate_name]
    rw [if_pos h', hsplit]

/-- C3 witness: "Smith, John" normalizes to Smith_John through the amended
rule. -/
theorem parse_comma_label_amended_w :
    parse_candidate_name "Smith, John".toList = some "Smith_John".toList := by
  have h2 := (parse_comma_label_amended ("Smith, John".toList) (by decide)).2
    "John".toList [] (by decide)
  rw [h2]
  decide

/-- C4: on a comma-free label, with at least two whitespace tokens the first
token is the firstname and the last the lastname (middle tokens discarded,
result sanitized Lastname_Firstname); with exactly one token the (stripped)
label passes through sanitization verbatim; in particular "Prince" yields
exactly "Prince", with no underscore inserted. -/
theorem parse_no_comma_label (s : List Char) (hc : ',' ∉ s) :
    (∀ f mid l, pySplitWs (pyStrip s) = f :: mid ++ [l] →
      parse_candidate_name s = some (sanitize_filename (l ++ '_' :: f))) ∧
    (∀ t, pySplitWs (pyStrip s) = [t] →
      parse_candidate_name s = some (sanitize_filename (pyStrip s))) ∧
    parse_candidate_name "Prince".toList = some "Prince".toList := by
  have hc' : ',' ∉ pyStrip s := fun hm => hc ((mem_pyStrip_iff ',' (by decide) s).mp hm)
  refine ⟨?_, ?_, by decide⟩
  · intro f mid l hsplit
    simp only [parse_candidate_name]
    rw [if_neg hc', hsplit]
    have hlen : 2 ≤ (f :: mid ++ [l]).length := by
      simp only [List.length_cons, List.length_append, List.length_singleton]
      omega
    rw [if_pos hlen]
    have h1 : (f :: mid ++ [l]).getLastD [] = l := by
      rw [show f :: mid ++ [l] = (f :: mid) ++ [l] from rfl]
      exact List.getLastD_concat _ _ _
    rw [h1]
    rfl
  · intro t hone
    simp only [parse_candidate_name]
    rw [if_neg hc', hone, if_neg (by norm_num)]

/-- C4 witness: "John Q. Smith" (three tokens) normalizes to Smith_John. -/
theorem parse_no_comma_label_w :
    parse_candidate_name "John Q. Smith".toList = some "Smith_John".toList := by
  have h := (parse_no_comma_label ("John Q. Smith".toList) (by decide)).1
    "John".toList ["Q.".toList] "Smith".toList (by decide)
  rw [h]
  decide

/-- C1 counterexample: with boundaries at pages 2 and 7 of a 10-page document
(the spec's own Scenario 1) the candidate ranges are [2,6] and [7,9]; pages 0
and 1 are covered by no range, so the ranges do not partition [0, 9]. -/
theorem candidate_ranges_not_partition_cex :
    ¬ (∀ p : Int,
        rangesCover (candidate_ranges 10 (sortByStart scenario1_toc)) p ↔
          (0 ≤ p ∧ p ≤ 10 - 1)) := by
  intro h
  have h0 := (h 0).mpr (by norm_num)
  revert h0
  decide

/-- C1 (amended): for a non-empty boundary list with strictly increasing start
pages, all at most total − 1, sorting by start page is the identity and the
end-page rule yields inclusive candidate ranges that exactly partition
[first start page, total − 1]: a page index is covered by some range iff it
lies in that interval, and distinct ranges never overlap.  (That interval is
[0, total − 1] exactly when the first boundary starts at page 0.) -/
theorem candidate_ranges_partition (toc : List (List Char × Int))
    (total : Nat) (hne : toc ≠ [])
    (hsort : toc.Pairwise (fun a b => a.2 < b.2))
    (hbound : ∀ f ∈ toc, f.2 ≤ (total : Int) - 1) :
    sortByStart toc = toc ∧
    (∀ p : Int, rangesCover (candidate_ranges total toc) p ↔
      ((toc.head hne).2 ≤ p ∧ p ≤ (total : Int) - 1)) ∧
    (candidate_ranges total toc).Pairwise rangesDisjoint := by
  refine ⟨sortByStart_eq_self toc hsort, ?_,
    candidate_ranges_pairwise_disjoint total toc hsort⟩
  cases toc with
  | nil => exact absurd rfl hne
  | cons e rest => exact rangesCover_candidate_ranges total e rest hsort hbound

/-- C1 witness: on Scenario 1 the ranges cover page 5 but not page 1. -/
theorem candidate_ranges_partition_w :
    rangesCover (candidate_ranges 10 scenario1_toc) 5 ∧
    ¬ rangesCover (candidate_ranges 10 scenario1_toc) 1 := by
  have h := candidate_ranges_partition scenario1_toc 10
    (by decide) (by decide) (by decide)
  constructor
  · exact (h.2.1 5).mpr (by decide)
  · intro hcov
    have h1 := (h.2.1 1).mp hcov
    revert h1
    decide

/-- C2: the range of boundary i ends at the next boundary's start − 1, or at
total − 1 for the last boundary; the writer's page list for a boundary holds,
in strictly increasing order, exactly the page numbers of [start, end] that
are < total; and Scenario 1 (Smith at page 2, Doe at page 7, 10 pages) yields
the ranges 2–6 and 7–9 with exactly those pages copied. -/
theorem split_ranges_and_output (toc : List (List Char × Int)) (total : Nat)
    (i : Nat) (_hsort : toc.Pairwise (fun a b => a.2 ≤ b.2))
    (hi : i < toc.length) :
    (∀ h2 : i + 1 < toc.length, end_page toc total i = (toc[i + 1]).2 - 1) ∧
    (toc.length ≤ i + 1 → end_page toc total i = (total : Int) - 1) ∧
    (∀ p : Int,
      p ∈ candidate_page_nums (toc[i]).2 (end_page toc total i) total ↔
        ((toc[i]).2 ≤ p ∧ p ≤ end_page toc total i ∧ p < (total : Int))) ∧
    (candidate_page_nums (toc[i]).2 (end_page toc total i) total).Pairwise (· < ·) ∧
    candidate_ranges 10 scenario1_toc = [(2, 6), (7, 9)] ∧
    candidate_page_nums 2 6 10 = [2, 3, 4, 5, 6] ∧
    candidate_page_nums 7 9 10 = [7, 8, 9] := by
  refine ⟨?_, ?_, fun p => mem_candidate_page_nums _ _ _ p,
    pairwise_lt_candidate_page_nums _ _ _, by decide, by decide, by decide⟩
  · intro h2
    unfold end_page
    rw [List.getElem?_eq_getElem h2]
  · intro hge
    unfold end_page
    rw [List.getElem?_eq_none hge]

/-- C2 witness: on Scenario 1, boundary 0 ends at page 6 and its output
contains page 5. -/
theorem split_ranges_and_output_w :
    end_page scenario1_toc 10 0 = 6 ∧
    (5 : Int) ∈ candidate_page_nums 2 (end_page scenario1_toc 10 0) 10 := by
  have h := split_ranges_and_output scenario1_toc 10 0 (by decide) (by decide)
  constructor
  · rw [h.1 (by decide)]
    decide
  · exact (h.2.2.1 5).mpr (by decide)

/-- C5: the text-pattern fallback is consulted only when outline extraction
yields zero entries; it scans at most the first 5 pages (fewer on a shorter
document); each page contributes, per regex match, the entry
(stripped label, printed number − 1), and matches accumulate across pages in
page order; Scenario 2's first-page text yields boundaries at page indices 2
and 7. -/
theorem extract_toc_fallback (outline : List (List Char × Int))
    (pageTexts : List (List Char)) (ho : outline ≠ []) :
    select_boundaries outline pageTexts = outline ∧
    (∀ texts : List (List Char),
      select_boundaries [] texts = extract_toc_from_text texts) ∧
    (∀ texts : List (List Char),
      extract_toc_from_text texts = extract_toc_from_text (texts.take 5)) ∧
    (∀ texts : List (List Char),
      extract_toc_from_text texts = ((texts.take 5).map pageTocEntries).flatten) ∧
    extract_toc_from_text
        ["Smith, John .......... 3\nDoe, Jane .......... 8".toList] =
      [("Smith, John".toList, 2), ("Doe, Jane".toList, 7)] := by
  refine ⟨?_, fun _ => rfl, ?_, fun _ => rfl, by decide⟩
  · unfold select_boundaries
    rw [if_neg (fun hemp => ho (List.isEmpty_iff.mp hemp))]
  · intro texts
    simp [extract_toc_from_text, List.take_take]

/-- C5 witness: a non-empty outline is used as is, ignoring the page texts. -/
theorem extract_toc_fallback_w :
    select_boundaries [("Smith, John".toList, 2)] ["Doe, Jane 7".toList] =
      [("Smith, John".toList, 2)] :=
  (extract_toc_fallback [("Smith, John".toList, 2)] ["Doe, Jane 7".toList]
    (by decide)).1

/-- C6 counterexample: a run with the analyze flag still creates the output
base directory: the splitter constructor (source line 39) makes it before the
analyze/split branch of `main` (source lines 332-335). -/
theorem analyze_creates_base_dir_cex :
    FsEff.mkdirBase "candidates".toList ∈
      (main_run (some "in.pdf".toList) (fun _ => true) [] true
        "candidates".toList [] [] 10 (fun _ => false)).2 := by
  decide

/-- C6 (amended): with the analyze flag the run performs structural analysis
instead of splitting and creates no candidate folders and no files; its only
filesystem effect is the creation of the output base directory, which the
splitter constructor performs before the mode branch is consulted. -/
theorem analyze_no_split_output (pdfArg : Option (List Char))
    (fileExists : List Char → Bool) (globR007 : List (List Char))
    (base : List Char) (outline : List (List Char × Int))
    (pageTexts : List (List Char)) (total : Nat) (failsWrite : Nat → Bool) :
    (main_run pdfArg fileExists globR007 true base outline pageTexts
        total failsWrite).2 = [] ∨
    (main_run pdfArg fileExists globR007 true base outline pageTexts
        total failsWrite).2 = [FsEff.mkdirBase base] := by
  unfold main_run
  cases pdfArg with
  | some f =>
    cases hf : fileExists f with
    | true => right; simp [hf]
    | false => left; simp [hf]
  | none =>
    cases globR007 with
    | nil => left; rfl
    | cons g gs => right; rfl

/-- C7 counterexample: an analyze run on a zero-page document whose input
file exists: neither of the claim's two non-zero conditions holds, yet the
process exits non-zero, because `analyze_pdf_structure` accesses
`reader.pages[0]` with no guard (source line 265) and the resulting
IndexError is uncaught; so exit is not zero "in every other case". -/
theorem main_exit_code_cex :
    ¬ ((main_run (some "in.pdf".toList) (fun _ => true) [] true
          "candidates".toList [] [] 0 (fun _ => false)).1 ≠ 0 ↔
        ((∃ f, (some "in.pdf".toList : Option (List Char)) = some f ∧
            (fun (_ : List Char) => true) f = false) ∨
          ((some "in.pdf".toList : Option (List Char)) = none ∧
            ([] : List (List Char)) = []))) := by
  intro h
  have h1 : (main_run (some "in.pdf".toList) (fun _ => true) [] true
      "candidates".toList [] [] 0 (fun _ => false)).1 ≠ 0 := by decide
  rcases h.mp h1 with ⟨f, _, hfe⟩ | ⟨hn, _⟩
  · exact absurd hfe (by simp)
  · exact Option.noConfusion hn

/-- C7 (amended): the process exits non-zero exactly when the explicitly
given input file does not exist, or, with no argument, the fixed-prefix glob
finds no file, or — input resolution having succeeded — the analyze flag is
set on a zero-page document, where the unguarded first-page access of
`analyze_pdf_structure` raises an uncaught IndexError.  On the split path
(no analyze flag) the original contract holds: the exit code is non-zero
exactly on the two input-resolution failures, and does not depend on the
outline, the page texts, the page count or per-candidate failures, so a run
whose boundary extraction fails entirely (producing no output) still
exits 0. -/
theorem main_exit_code_amended (pdfArg : Option (List Char))
    (fileExists : List Char → Bool) (globR007 : List (List Char))
    (analyze : Bool) (base : List Char) (outline : List (List Char × Int))
    (pageTexts : List (List Char)) (total : Nat) (failsWrite : Nat → Bool) :
    ((main_run pdfArg fileExists globR007 analyze base outline pageTexts
        total failsWrite).1 ≠ 0 ↔
      (((∃ f, pdfArg = some f ∧ fileExists f = false) ∨
          (pdfArg = none ∧ globR007 = [])) ∨
        (¬((∃ f, pdfArg = some f ∧ fileExists f = false) ∨
            (pdfArg = none ∧ globR007 = [])) ∧
          analyze = true ∧ total = 0))) ∧
    (analyze = false →
      ((main_run pdfArg fileExists globR007 analyze base outline pageTexts
          total failsWrite).1 ≠ 0 ↔
        ((∃ f, pdfArg = some f ∧ fileExists f = false) ∨
          (pdfArg = none ∧ globR007 = [])))) := by
  constructor
  · unfold main_run
    cases pdfArg with
    | some f =>
      cases hf : fileExists f with
      | true =>
        cases analyze with
        | false => simp [hf]
        | true =>
          cases total with
          | zero => simp [hf]
          | succ n => simp [hf]
      | false => simp [hf]
    | none =>
      cases globR007 with
      | nil => simp
      | cons g gs =>
        cases analyze with
        | false => simp
        | true =>
          cases total with
          | zero => simp
          | succ n => simp
  · intro ha
    subst ha
    unfold main_run
    cases pdfArg with
    | some f =>
      cases hf : fileExists f with
      | true => simp [hf]
      | false => simp [hf]
    | none =>
      cases globR007 with
      | nil => simp
      | cons g gs => simp

/-- C7 witness: a split-path run (no analyze flag) on a zero-page document
with an existing input file exits 0 even though extraction yields nothing. -/
theorem main_exit_code_amended_w :
    (main_run (some "in.pdf".toList) (fun _ => true) [] false
        "candidates".toList [] [] 0 (fun _ => false)).1 = 0 := by
  by_contra hne
  rcases ((main_exit_code_amended (some "in.pdf".toList) (fun _ => true) []
      false "candidates".toList [] [] 0 (fun _ => false)).2 rfl).mp hne with
    ⟨f, _, hfe⟩ | ⟨hn, _⟩
  · exact absurd hfe (by simp)
  · exact Option.noConfusion hn

/-- C8: per-candidate failure isolation in `split_pdf`: the run yields one
effect block per boundary (it never aborts); a candidate whose write step
raises gets its error logged and produces no written PDF; every candidate
whose processing does not raise has its PDF write present in the run's
effect trace, regardless of which other candidate failed; and whenever
boundaries exist, `split_pdf` is exactly the concatenation of the
per-candidate blocks over the sorted boundary list. -/
theorem split_pdf_failure_isolation (base : List Char) (total : Nat)
    (failsWrite : Nat → Bool) (toc : List (List Char × Int)) (j : Nat)
    (_hjf : failsWrite j = true) :
    (split_blocks base total failsWrite toc).length = toc.length ∧
    (∀ i, ∀ hi : i < toc.length, failsWrite i = false →
      ∀ nm, parse_candidate_name (toc[i]).1 = some nm →
        FsEff.writeCand base nm
            (candidate_page_nums (toc[i]).2 (end_page toc total i) total) ∈
          (split_blocks base total failsWrite toc).flatten) ∧
    (∀ i, ∀ hi : i < toc.length, failsWrite i = true →
      (∀ nm pgs, FsEff.writeCand base nm pgs ∉
          candidate_effects base total toc failsWrite i (toc[i])) ∧
      FsEff.logErr (toc[i]).1 ∈
        candidate_effects base total toc failsWrite i (toc[i])) ∧
    (∀ outline pageTexts, select_boundaries outline pageTexts ≠ [] →
      split_pdf_effects base total outline pageTexts failsWrite =
        (split_blocks base total failsWrite
          (sortByStart (select_boundaries outline pageTexts))).flatten) := by
  have hblock : ∀ i, ∀ hi : i < toc.length,
      ∀ hib : i < (split_blocks base total failsWrite toc).length,
      (split_blocks base total failsWrite toc)[i] =
        candidate_effects base total toc failsWrite i (toc[i]) := by
    intro i hi hib
    unfold split_blocks
    rw [List.getElem_map, List.getElem_enum]
  have hlen : (split_blocks base total failsWrite toc).length = toc.length := by
    unfold split_blocks
    rw [List.length_map, List.enum_length]
  refine ⟨hlen, ?_, ?_, ?_⟩
  · intro i hi hfi nm hnm
    rw [List.mem_flatten]
    refine ⟨candidate_effects base total toc failsWrite i (toc[i]), ?_, ?_⟩
    · have hib : i < (split_blocks base total failsWrite toc).length := by
        rw [hlen]; exact hi
      rw [← hblock i hi hib]
      exact List.getElem_mem hib
    · unfold candidate_effects
      rw [hnm]
      simp [hfi]
  · intro i hi hfi
    unfold candidate_effects
    cases hp : parse_candidate_name (toc[i]).1 with
    | none => exact ⟨fun nm pgs => by simp, by simp⟩
    | some nm' => exact ⟨fun nm pgs => by simp [hfi], by simp [hfi]⟩
  · intro outline pageTexts hne
    unfold split_pdf_effects
    rw [if_neg (fun hemp => hne (List.isEmpty_iff.mp hemp))]

/-- C8 witness: with candidate 0 failing at its write step, candidate 1's PDF
write still appears in the run's effect trace. -/
theorem split_pdf_failure_isolation_w :
    FsEff.writeCand "candidates".toList "Doe_Jane".toList
        (candidate_page_nums 7 (end_page scenario1_toc 10 1) 10) ∈
      (split_blocks "candidates".toList 10 (fun i => decide (i = 0))
          scenario1_toc).flatten :=
  (split_pdf_failure_isolation "candidates".toList 10 (fun i => decide (i = 0))
      scenario1_toc 0 (by decide)).2.1
    1 (by decide) (by decide) ("Doe_Jane".toList) (by decide)

/-- C10: a text-extracted entry whose printed page number is 0 produces the
boundary start −1 (Scenario: "Zero, Page .... 0"); the writer's only bound
check is page_num < total, so −1 survives filtering as the first page number
passed to the reader, and Python negative indexing resolves it to total − 1:
the candidate's output begins with the LAST page of the source document. -/
theorem printed_zero_negative_start (total : Nat) (e : Int)
    (h1 : 1 ≤ total) (h2 : -1 ≤ e) :
    pageTocEntries "Zero, Page .... 0".toList = [("Zero, Page".toList, -1)] ∧
    (candidate_page_nums (-1) e total).head? = some (-1) ∧
    ((candidate_page_nums (-1) e total).map (pyPageIndex total)).head? =
      some ((total : Int) - 1) := by
  refine ⟨by decide, candidate_page_nums_neg_one_head e total h1 h2, ?_⟩
  rw [List.head?_map, candidate_page_nums_neg_one_head e total h1 h2]
  show some (pyPageIndex total (-1)) = some ((total : Int) - 1)
  unfold pyPageIndex
  rw [if_pos (by norm_num : (-1 : Int) < 0)]
  congr 1

/-- C10 witness: with 10 pages and end page 8, the first page written is the
source's last page, index 9. -/
theorem printed_zero_negative_start_w :
    ((candidate_page_nums (-1) 8 10).map (pyPageIndex 10)).head? =
      some ((10 : Int) - 1) :=
  (printed_zero_negative_start 10 8 (by decide) (by decide)).2.2

